import Mathlib

set_option maxRecDepth 4000

/-!
Shallow embedding of the conversation normalizer (`process_messages` in
async-claude/src/messages/request.rs), the content model
(async-claude/src/messages.rs), and the streaming translation engine
(`ClaudeEventDataParser` in await-openai/src/claude.rs), together with
theorems settling the specification claims about them.

Rust `String` is modelled as Lean `String`, `Vec<T>` as `List T`,
`Option<T>` as `Option T`, `u32`/`u64` counters as `Nat` (the claims never
exercise integer overflow), and `serde_json::Value` as the `Json` type
below.  Rust's `char::is_whitespace` is modelled by `Char.isWhitespace`
(they agree on all ASCII whitespace, which is all the concrete inputs
used here exercise).
-/

/-- Model of `serde_json::Value`.  Numbers are restricted to integers,
which covers every concrete input appearing in the development. -/
inductive Json where
  | null : Json
  | bool (b : Bool) : Json
  | num (n : Int) : Json
  | str (s : String) : Json
  | arr (elems : List Json) : Json
  | obj (fields : List (String × Json)) : Json

/-- Model of `serde_json::Value::is_object`. -/
def Json.is_object : Json → Bool
  | .obj _ => true
  | _ => false

/-! ### A model of `serde_json::from_str::<serde_json::Value>`

serde_json is an external library; the parser below models its grammar on
the fragment relevant here: objects, arrays, strings with the common
escapes, integer numerals, `true`/`false`/`null`, and insignificant
whitespace, requiring the whole input to be consumed. -/

def isJsonWs (c : Char) : Bool := c == ' ' || c == '\n' || c == '\t' || c == '\r'

def skipWs (cs : List Char) : List Char := cs.dropWhile isJsonWs

def parseStringBody : List Char → List Char → Option (String × List Char)
  | [], _ => none
  | '"' :: rest, acc => some (⟨acc.reverse⟩, rest)
  | '\\' :: c :: rest, acc =>
    if c == 'n' then parseStringBody rest ('\n' :: acc)
    else if c == 't' then parseStringBody rest ('\t' :: acc)
    else if c == 'r' then parseStringBody rest ('\r' :: acc)
    else if c == '"' || c == '\\' || c == '/' then parseStringBody rest (c :: acc)
    else none
  | c :: rest, acc => parseStringBody rest (c :: acc)

def digitsToNat (ds : List Char) : Nat :=
  ds.foldl (fun n c => n * 10 + (c.toNat - '0'.toNat)) 0

def parseNumberToken (cs : List Char) : Option (Int × List Char) :=
  match cs with
  | '-' :: rest =>
    let p := rest.span (·.isDigit)
    if p.1.isEmpty then none else some (-(digitsToNat p.1 : Int), p.2)
  | _ =>
    let p := cs.span (·.isDigit)
    if p.1.isEmpty then none else some ((digitsToNat p.1 : Int), p.2)

mutual

def parseValue : Nat → List Char → Option (Json × List Char)
  | 0, _ => none
  | fuel + 1, cs =>
    match skipWs cs with
    | [] => none
    | '{' :: rest => parseObjectBody fuel (skipWs rest)
    | '[' :: rest => parseArrayBody fuel (skipWs rest)
    | '"' :: rest => (parseStringBody rest []).map (fun p => (Json.str p.1, p.2))
    | 't' :: 'r' :: 'u' :: 'e' :: rest => some (.bool true, rest)
    | 'f' :: 'a' :: 'l' :: 's' :: 'e' :: rest => some (.bool false, rest)
    | 'n' :: 'u' :: 'l' :: 'l' :: rest => some (.null, rest)
    | rest => (parseNumberToken rest).map (fun p => (Json.num p.1, p.2))

def parseObjectBody : Nat → List Char → Option (Json × List Char)
  | 0, _ => none
  | fuel + 1, cs =>
    match cs with
    | '}' :: rest => some (.obj [], rest)
    | _ => parseMembers fuel cs []

def parseMembers : Nat → List Char → List (String × Json) → Option (Json × List Char)
  | 0, _, _ => none
  | fuel + 1, cs, acc =>
    match skipWs cs with
    | '"' :: rest =>
      match parseStringBody rest [] with
      | none => none
      | some (key, rest2) =>
        match skipWs rest2 with
        | ':' :: rest3 =>
          match parseValue fuel rest3 with
          | none => none
          | some (v, rest4) =>
            match skipWs rest4 with
            | ',' :: rest5 => parseMembers fuel rest5 (acc ++ [(key, v)])
            | '}' :: rest5 => some (.obj (acc ++ [(key, v)]), rest5)
            | _ => none
        | _ => none
    | _ => none

def parseArrayBody : Nat → List Char → Option (Json × List Char)
  | 0, _ => none
  | fuel + 1, cs =>
    match cs with
    | ']' :: rest => some (.arr [], rest)
    | _ => parseElements fuel cs []

def parseElements : Nat → List Char → List Json → Option (Json × List Char)
  | 0, _, _ => none
  | fuel + 1, cs, acc =>
    match parseValue fuel cs with
    | none => none
    | some (v, rest) =>
      match skipWs rest with
      | ',' :: rest2 => parseElements fuel rest2 (acc ++ [v])
      | ']' :: rest2 => some (.arr (acc ++ [v]), rest2)
      | _ => none

end

def parseJson (s : String) : Option Json :=
  match parseValue (s.length + 2) s.data with
  | some (v, rest) => if (skipWs rest).isEmpty then some v else none
  | none => none

/-! ### Content model (async-claude/src/messages.rs) -/

inductive Role where
  | User
  | Assistant
deriving DecidableEq

structure ToolUseContentBlock where
  id : String
  name : String
  input : Json

inductive BaseContentBlock where
  | Text (text : String)
  | Thinking (thinking : String) (signature : Option String)
  | ToolUse (toolUse : ToolUseContentBlock)

inductive ImageSource where
  | Base64 (media_type : String) (data : String)

inductive RequestOnlyContentBlock where
  | Image (source : ImageSource)
  | Document (source : Option String) (id : Option String)
  | ToolResult (tool_use_id : String) (content : String)

inductive RedactedThinkingContentBlock where
  | RedactedThinking (data : String)

inductive ContentBlock where
  | Base (b : BaseContentBlock)
  | RequestOnly (r : RequestOnlyContentBlock)
  | RedactedThinking (r : RedactedThinkingContentBlock)

inductive MessageContent where
  | Text (s : String)
  | Blocks (blocks : List ContentBlock)

structure Message where
  role : Role
  content : MessageContent

/-- Models Rust `s.trim().is_empty()`: true iff every character is whitespace. -/
def isBlank (s : String) : Bool := s.data.all Char.isWhitespace

/-- Models Rust `str::trim_end`. -/
def trimEnd (s : String) : String := ⟨(s.data.reverse.dropWhile Char.isWhitespace).reverse⟩

/-- `ContentBlock::is_empty` from async-claude/src/messages.rs. -/
def ContentBlock.is_empty : ContentBlock → Bool
  | .Base (.Text text) => isBlank text
  | .Base (.Thinking thinking _) => isBlank thinking
  | .Base (.ToolUse t) => t.id == "" || t.name == "" || !t.input.is_object
  | .RequestOnly (.Image (.Base64 media_type data)) => isBlank media_type || isBlank data
  | .RequestOnly (.Document source id) => source.isNone || id.isNone
  | .RequestOnly (.ToolResult tool_use_id content) => tool_use_id == "" || isBlank content
  | .RedactedThinking (.RedactedThinking data) => data == ""

/-- `MessageContent::is_all_empty`: blank text, or every block empty
(an empty block list counts as empty). -/
def MessageContent.is_all_empty : MessageContent → Bool
  | .Text s => isBlank s
  | .Blocks blocks => blocks.all (·.is_empty)

def Message.is_all_empty (m : Message) : Bool := m.content.is_all_empty

/-! ### The conversation normalizer (`process_messages`) -/

/-- Merging two consecutive same-role messages: the body of the
same-role branch inside the loop of `process_messages`. -/
def combine (prev curr : Message) : Message :=
  match prev.content, curr.content with
  | .Text p, .Text c => { prev with content := .Text (p ++ "\n" ++ c) }
  | .Blocks p, .Blocks c =>
    { prev with content := .Blocks (p.filter (fun b => !b.is_empty) ++ c.filter (fun b => !b.is_empty)) }
  | .Blocks p, .Text c =>
    { prev with content := .Blocks (p.filter (fun b => !b.is_empty) ++ [.Base (.Text c)]) }
  | .Text p, .Blocks c =>
    { prev with content := .Blocks (.Base (.Text p) :: c.filter (fun b => !b.is_empty)) }

/-- One iteration of the loop in `process_messages`: the state is the
`filtered` output built so far plus `prev_message`. -/
def processStep (st : List Message × Option Message) (message : Message) :
    List Message × Option Message :=
  if message.is_all_empty then st
  else
    match st.2 with
    | some prev =>
      if prev.role = message.role then
        let combined := combine prev message
        (st.1.dropLast ++ [combined], some combined)
      else (st.1 ++ [message], some message)
    | none => (st.1 ++ [message], some message)

/-- The synthetic user message inserted when the original first message
has role Assistant. -/
def placeholderMessage : Message := ⟨.User, .Text "Starting the conversation..."⟩

/-- The leading-role boundary fixup of `process_messages` (keyed on the
original, pre-drop first message). -/
def leadingFixup (messages : List Message) (filtered : List Message) : List Message :=
  match messages.head? with
  | some first => if first.role = .Assistant then placeholderMessage :: filtered else filtered
  | none => filtered

def trimBlock : ContentBlock → ContentBlock
  | .Base (.Text text) => .Base (.Text (trimEnd text))
  | b => b

/-- Trailing-whitespace trimming applied to the final message when it has
role Assistant. -/
def trimLastMessage (m : Message) : Message :=
  { m with content :=
      match m.content with
      | .Text text => .Text (trimEnd text)
      | .Blocks blocks => .Blocks (blocks.map trimBlock) }

/-- The trailing boundary fixup of `process_messages`. -/
def finalTrim (l : List Message) : List Message :=
  match l.getLast? with
  | some last => if last.role = .Assistant then l.dropLast ++ [trimLastMessage last] else l
  | none => l

/-- `process_messages` from async-claude/src/messages/request.rs:
drop empty messages while merging consecutive same-role messages, then the
two boundary fixups. -/
def process_messages (messages : List Message) : List Message :=
  finalTrim (leadingFixup messages (messages.foldl processStep ([], none)).1)

/-! ### Recursive characterization of the loop (for proofs) -/

/-- Forward-recursive form of the merge loop: `prev` is the last kept
message, the list is what remains to process (already filtered). -/
def mergeAll (prev : Message) : List Message → List Message
  | [] => [prev]
  | m :: rest =>
    if prev.role = m.role then mergeAll (combine prev m) rest else prev :: mergeAll m rest

/-- The loop of `process_messages` as filter-then-merge. -/
def loopOut (messages : List Message) : List Message :=
  match messages.filter (fun m => !m.is_all_empty) with
  | [] => []
  | m :: rest => mergeAll m rest

/-! ### Conversation invariants (§3 of the spec) -/

def rolesAlternate : List Message → Bool
  | a :: b :: rest => if a.role = b.role then false else rolesAlternate (b :: rest)
  | _ => true

def startsWithUser : List Message → Bool
  | [] => true
  | m :: _ => decide (m.role = .User)

/-- True iff the string does not end with a whitespace character. -/
def noTrailingWs (s : String) : Bool :=
  match s.data.getLast? with
  | some c => !c.isWhitespace
  | none => true

def blockTrimmed : ContentBlock → Bool
  | .Base (.Text text) => noTrailingWs text
  | _ => true

/-- No text-bearing position of the message ends with whitespace. -/
def messageTrimmed (m : Message) : Bool :=
  match m.content with
  | .Text text => noTrailingWs text
  | .Blocks blocks => blocks.all blockTrimmed

/-- The final message, if role Assistant, has no trailing whitespace. -/
def lastAssistantTrimmed (l : List Message) : Bool :=
  match l.getLast? with
  | some last => if last.role = .Assistant then messageTrimmed last else true
  | none => true

/-! ### OpenAI-side entity types (await-openai/src/entity) -/

inductive OpenaiRole where
  | System
  | User
  | Assistant
  | Tool
deriving DecidableEq

inductive FinishReason where
  | Stop
  | Length
  | ToolCalls
  | ContentFilter
deriving DecidableEq

structure ToolCallFunctionObj where
  name : String
  arguments : String

structure ToolCallFunction where
  id : String
  function : ToolCallFunctionObj

inductive ToolCall where
  | Function (f : ToolCallFunction)

/-- `Usage` from await-openai/src/entity/chat_completion_object.rs.  The
optional per-category detail fields are never touched by claude.rs and are
omitted. -/
structure OpenaiUsage where
  prompt_tokens : Nat
  completion_tokens : Nat

structure ToolCallFunctionObjChunk where
  name : Option String
  arguments : String

structure ToolCallChunk where
  index : Nat
  id : Option String
  type : Option String
  function : ToolCallFunctionObjChunk

/-- The incremental delta of a streamed chunk, with the fields
claude.rs populates (`content`, `reasoning`, `role`, `tool_calls`). -/
structure DeltaMessage where
  content : Option String
  reasoning : Option String
  tool_calls : Option (List ToolCallChunk)
  role : Option OpenaiRole

/-- `Choice` of a chunk.  `logprobs` is always `None` in claude.rs and its
payload type is modelled as `Unit`. -/
structure Choice where
  index : Nat
  delta : DeltaMessage
  finish_reason : Option FinishReason
  logprobs : Option Unit

structure ChunkResponse where
  id : String
  choices : List Choice
  created : Nat
  model : String
  system_fingerprint : String
  service_tier : Option String
  object : String
  usage : Option OpenaiUsage

inductive Chunk where
  | Done
  | Data (r : ChunkResponse)

/-! ### Claude response / stream-event types (async-claude) -/

inductive StopReason where
  | EndTurn
  | MaxTokens
  | StopSequence
  | ToolUse
deriving DecidableEq

structure Usage where
  input_tokens : Option Nat
  output_tokens : Nat

inductive ResponseContentBlock where
  | Base (b : BaseContentBlock)
  | RedactedThinking (r : RedactedThinkingContentBlock)

structure Response where
  id : String
  type : String
  role : Role
  content : List ResponseContentBlock
  model : String
  stop_reason : Option StopReason
  stop_sequence : Option String
  usage : Usage

inductive DeltaContentBlock where
  | TextDelta (text : String)
  | InputJsonDelta (partial_json : String)
  | ThinkingDelta (thinking : String)
  | SignatureDelta (signature : String)

inductive ErrorData where
  | OverloadedError (message : String)
  | InternalServerError (message : String)
  | BadRequestError (message : String)
  | UnauthorizedError (message : String)

/-- The `Display` impl of `ErrorData`. -/
def ErrorData.display : ErrorData → String
  | .OverloadedError message => "OverloadedError: " ++ message
  | .InternalServerError message => "InternalServerError: " ++ message
  | .BadRequestError message => "BadRequestError: " ++ message
  | .UnauthorizedError message => "UnauthorizedError: " ++ message

structure MessageDelta where
  stop_reason : StopReason
  stop_sequence : Option String

inductive EventData where
  | Error (error : ErrorData)
  | MessageStart (message : Response)
  | ContentBlockStart (index : Nat) (content_block : BaseContentBlock)
  | Ping
  | ContentBlockDelta (index : Nat) (delta : DeltaContentBlock)
  | ContentBlockStop (index : Nat)
  | MessageDelta (delta : MessageDelta) (usage : Usage)
  | MessageStop

/-- `impl From<StopReason> for FinishReason` in await-openai/src/claude.rs. -/
def stopReasonToFinishReason : StopReason → FinishReason
  | .EndTurn => .Stop
  | .MaxTokens => .Length
  | .StopSequence => .Stop
  | .ToolUse => .ToolCalls

/-! ### The accumulator shared with the OpenAI chunk parser

Modelled from the spec: `OpenaiEventDataParser` is declared in the
repository's await-openai entity module but its definition is not among
the provided sources (claude.rs only calls it).  Its fields and methods
are modelled from §3 "TranslatorAccumulator" (identifier, model name,
creation timestamp, visible-text buffer, reasoning-text buffer, completed
tool calls, last finish reason) and §4.2 (id/model captured once if not
already set; text/thinking deltas appended to the buffers). -/
structure OpenaiEventDataParser where
  id : String
  model : String
  created : Nat
  content : String
  think_content : String
  tool_calls : List ToolCall
  finish_reason : Option FinishReason
  object : String

/-- Modelled from the spec: a freshly constructed accumulator is empty. -/
def OpenaiEventDataParser.default : OpenaiEventDataParser :=
  ⟨"", "", 0, "", "", [], none, "chat.completion.chunk"⟩

/-- Modelled from the spec: capture the id once if not already set. -/
def OpenaiEventDataParser.update_id_if_empty (p : OpenaiEventDataParser) (id : String) :
    OpenaiEventDataParser :=
  if p.id = "" then { p with id := id } else p

/-- Modelled from the spec: capture the model once if not already set. -/
def OpenaiEventDataParser.update_model_if_empty (p : OpenaiEventDataParser) (model : String) :
    OpenaiEventDataParser :=
  if p.model = "" then { p with model := model } else p

/-- Modelled from the spec: append to the visible-text buffer. -/
def OpenaiEventDataParser.push_content (p : OpenaiEventDataParser) (text : String) :
    OpenaiEventDataParser :=
  { p with content := p.content ++ text }

/-- Modelled from the spec: append to the reasoning-text buffer. -/
def OpenaiEventDataParser.push_thinking (p : OpenaiEventDataParser) (thinking : String) :
    OpenaiEventDataParser :=
  { p with think_content := p.think_content ++ thinking }

/-- Modelled from the spec: append to the completed-tool-calls list. -/
def OpenaiEventDataParser.push_tool_call (p : OpenaiEventDataParser) (tc : ToolCall) :
    OpenaiEventDataParser :=
  { p with tool_calls := p.tool_calls ++ [tc] }

/-- Modelled from the spec: record the mapped finish reason. -/
def OpenaiEventDataParser.set_finish_reason (p : OpenaiEventDataParser)
    (r : Option FinishReason) : OpenaiEventDataParser :=
  { p with finish_reason := r }

/-! ### The Claude streaming translation engine (await-openai/src/claude.rs) -/

structure ClaudeEventDataParser where
  usage : OpenaiUsage
  parser : OpenaiEventDataParser
  stop_reason : Option StopReason
  stop_sequence : Option String
  tool_call : Option ToolCall
  claude_tool_calls : List ToolUseContentBlock
  signature : Option String

/-- The `Default` impl.  (It computes a UNIX timestamp and sets it on a
local parser, but then constructs the struct with a fresh
`OpenaiEventDataParser::default()`, so `created` is 0; the system-clock
call therefore has no observable effect and the default state is pure.) -/
def ClaudeEventDataParser.default : ClaudeEventDataParser :=
  ⟨⟨0, 0⟩, OpenaiEventDataParser.default, none, none, none, [], none⟩

/-- `ClaudeEventDataParser::chunk_with_choice`. -/
def ClaudeEventDataParser.chunk_with_choice (s : ClaudeEventDataParser) (index : Nat)
    (text : Option String) (reasoning : Option String) (role : Option OpenaiRole)
    (finish_reason : Option FinishReason) : Chunk :=
  .Data
    { id := s.parser.id
      choices := [{ index := index
                    delta := { content := text, reasoning := reasoning,
                               tool_calls := none, role := role }
                    finish_reason := finish_reason
                    logprobs := none }]
      created := s.parser.created
      model := s.parser.model
      system_fingerprint := ""
      service_tier := none
      object := "chat.completion.chunk"
      usage := none }

/-- `ClaudeEventDataParser::parse`.  Rust mutates `self` and returns a
`Result`; here the (possibly updated) state is returned alongside the
result, with `anyhow::bail!` modelled as `Except.error` of the formatted
message. -/
def ClaudeEventDataParser.parse (s : ClaudeEventDataParser) (data : EventData) :
    ClaudeEventDataParser × Except String (Option Chunk × Option ToolCall) :=
  match data with
  | .Error error => (s, .error ("Error from Claude API: " ++ error.display))
  | .MessageStart message =>
    let s' : ClaudeEventDataParser :=
      { s with
        parser := (s.parser.update_id_if_empty message.id).update_model_if_empty message.model
        usage := { prompt_tokens := message.usage.input_tokens.getD 0
                   completion_tokens := message.usage.output_tokens } }
    (s', .ok (some (s'.chunk_with_choice 0 none none (some .Assistant) none), none))
  | .ContentBlockStart _ content_block =>
    match content_block with
    | .ToolUse tool_use =>
      ({ s with tool_call := some (.Function ⟨tool_use.id, ⟨tool_use.name, ""⟩⟩) },
        .ok (none, none))
    | .Text _ => (s, .ok (none, none))
    | .Thinking _ _ => (s, .ok (none, none))
  | .Ping => (s, .ok (none, none))
  | .ContentBlockDelta index delta =>
    match delta with
    | .TextDelta text =>
      let s' : ClaudeEventDataParser := { s with parser := s.parser.push_content text }
      (s', .ok (some (s'.chunk_with_choice index (some text) none none none), none))
    | .InputJsonDelta partial_json =>
      match s.tool_call with
      | some (.Function function) =>
        ({ s with tool_call := some (.Function ⟨function.id,
            ⟨function.function.name, function.function.arguments ++ partial_json⟩⟩) },
          .ok (none, none))
      | none => (s, .ok (none, none))
    | .ThinkingDelta thinking =>
      let s' : ClaudeEventDataParser := { s with parser := s.parser.push_thinking thinking }
      (s', .ok (some (s'.chunk_with_choice index none (some thinking) none none), none))
    | .SignatureDelta signature => ({ s with signature := some signature }, .ok (none, none))
  | .ContentBlockStop _ =>
    match s.tool_call with
    | some (.Function function) =>
      let tool_call : ToolCall := .Function ⟨function.id, function.function⟩
      let s' : ClaudeEventDataParser :=
        { s with tool_call := none, parser := s.parser.push_tool_call tool_call }
      let s'' : ClaudeEventDataParser :=
        match parseJson function.function.arguments with
        | some obj =>
          { s' with claude_tool_calls :=
              s'.claude_tool_calls ++ [⟨function.id, function.function.name, obj⟩] }
        | none => s'
      (s'', .ok (none, some tool_call))
    | none => (s, .ok (none, none))
  | .MessageDelta delta usage =>
    let s' : ClaudeEventDataParser :=
      { s with
        usage := { s.usage with
                   completion_tokens := s.usage.completion_tokens + usage.output_tokens }
        parser := s.parser.set_finish_reason (some (stopReasonToFinishReason delta.stop_reason))
        stop_reason := some delta.stop_reason }
    (s', .ok (some (s'.chunk_with_choice 0 none none none
        (some (stopReasonToFinishReason delta.stop_reason))), none))
  | .MessageStop => (s, .ok (some .Done, none))

/-- `ClaudeEventDataParser::claude_response`: the aggregated response in
Claude's content-block vocabulary. -/
def ClaudeEventDataParser.claude_response (s : ClaudeEventDataParser) : Response :=
  let content : List ResponseContentBlock :=
    (if s.parser.think_content ≠ "" then
        [.Base (.Thinking s.parser.think_content s.signature)] else [])
    ++ (if s.parser.content ≠ "" then [.Base (.Text s.parser.content)] else [])
    ++ s.claude_tool_calls.map (fun tc => .Base (.ToolUse ⟨tc.id, tc.name, tc.input⟩))
  { id := s.parser.id
    type := "message"
    role := .Assistant
    content := content
    model := s.parser.model
    stop_reason := s.stop_reason
    stop_sequence := none
    usage := ⟨some s.usage.prompt_tokens, s.usage.completion_tokens⟩ }

/-- Feed a sequence of events through `parse`, keeping the state. -/
def runEvents (s : ClaudeEventDataParser) (events : List EventData) : ClaudeEventDataParser :=
  events.foldl (fun st e => (st.parse e).1) s

/-! ### Claims about the streaming translation engine -/

/-- The event sequence of the text-reconstruction claim. -/
def textReconstructionEvents : List EventData :=
  [ .MessageStart ⟨"msg_1", "message", .Assistant, [], "claude-3-opus-20240229", none, none,
      ⟨some 10, 1⟩⟩
  , .ContentBlockDelta 0 (.TextDelta "Hel")
  , .ContentBlockDelta 0 (.TextDelta "lo")
  , .MessageDelta ⟨.EndTurn, none⟩ ⟨none, 5⟩
  , .MessageStop ]

/-- C2: feeding a fresh engine MessageStart, TextDelta "Hel", TextDelta "lo",
MessageDelta(end_turn), MessageStop and aggregating yields exactly one Text
content block "Hello", and the recorded stop reason maps to Stop. -/
theorem streaming_text_reconstruction :
    ((runEvents ClaudeEventDataParser.default textReconstructionEvents).claude_response).content
      = [.Base (.Text "Hello")]
    ∧ ((runEvents ClaudeEventDataParser.default textReconstructionEvents).claude_response).stop_reason.map
        stopReasonToFinishReason = some .Stop :=
  ⟨rfl, rfl⟩

/-- The prefix of the tool-call-reconstruction event sequence. -/
def toolCallReconstructionEvents : List EventData :=
  [ .ContentBlockStart 0 (.ToolUse ⟨"tool_1", "get_weather", Json.obj []⟩)
  , .ContentBlockDelta 0 (.InputJsonDelta "\x7b\"a\":")
  , .ContentBlockDelta 0 (.InputJsonDelta "1\x7d") ]

/-- The consume call that processes the final ContentBlockStop. -/
def toolCallReconstructionStop :
    ClaudeEventDataParser × Except String (Option Chunk × Option ToolCall) :=
  (runEvents ClaudeEventDataParser.default toolCallReconstructionEvents).parse
    (.ContentBlockStop 0)

/-- C3: ContentBlockStart(ToolUse) followed by the two InputJsonDelta
fragments and ContentBlockStop yields exactly one completed tool call: the
consume call that processed ContentBlockStop returns it (its arguments the
verbatim concatenation of the fragments), the accumulated claude tool
calls hold its structured argument `{"a": 1}`, and the finalized response
contains it as the sole ToolUse content block. -/
theorem streaming_tool_call_reconstruction :
    toolCallReconstructionStop.2
      = .ok (none, some (.Function ⟨"tool_1", ⟨"get_weather", "\x7b\"a\":1\x7d"⟩⟩))
    ∧ toolCallReconstructionStop.1.claude_tool_calls
      = [⟨"tool_1", "get_weather", Json.obj [("a", Json.num 1)]⟩]
    ∧ (toolCallReconstructionStop.1.claude_response).content
      = [.Base (.ToolUse ⟨"tool_1", "get_weather", Json.obj [("a", Json.num 1)]⟩)] :=
  ⟨rfl, rfl, rfl⟩

/-- C4: if the accumulated arguments of the open tool call fail to parse
as JSON, the ContentBlockStop consume call still succeeds (no error is
surfaced), but the tool call is dropped from the aggregated content: the
claude tool-call list is unchanged, the accumulator is closed, and the
finalized response is identical to the one recoverable before the event. -/
theorem tool_call_dropped_on_parse_failure (s : ClaudeEventDataParser)
    (f : ToolCallFunction) (i : Nat)
    (hopen : s.tool_call = some (.Function f))
    (hfail : parseJson f.function.arguments = none) :
    (s.parse (.ContentBlockStop i)).2 = .ok (none, some (.Function ⟨f.id, f.function⟩))
    ∧ (s.parse (.ContentBlockStop i)).1.tool_call = none
    ∧ (s.parse (.ContentBlockStop i)).1.claude_tool_calls = s.claude_tool_calls
    ∧ (s.parse (.ContentBlockStop i)).1.claude_response = s.claude_response := by
  simp [ClaudeEventDataParser.parse, hopen, hfail, ClaudeEventDataParser.claude_response,
    OpenaiEventDataParser.push_tool_call]

/-- An engine state with an open tool call whose accumulated arguments
`"\x7b"` are not valid JSON. -/
def unparsableToolCallState : ClaudeEventDataParser :=
  { ClaudeEventDataParser.default with tool_call := some (.Function ⟨"t1", ⟨"f", "\x7b"⟩⟩) }

theorem tool_call_dropped_on_parse_failure_witness :
    unparsableToolCallState.tool_call = some (.Function ⟨"t1", ⟨"f", "\x7b"⟩⟩)
    ∧ parseJson "\x7b" = none
    ∧ (unparsableToolCallState.parse (.ContentBlockStop 0)).1.claude_tool_calls
      = unparsableToolCallState.claude_tool_calls
    ∧ (unparsableToolCallState.parse (.ContentBlockStop 0)).1.claude_response
      = unparsableToolCallState.claude_response :=
  ⟨rfl, rfl,
    (tool_call_dropped_on_parse_failure unparsableToolCallState ⟨"t1", ⟨"f", "\x7b"⟩⟩ 0
      rfl rfl).2.2.1,
    (tool_call_dropped_on_parse_failure unparsableToolCallState ⟨"t1", ⟨"f", "\x7b"⟩⟩ 0
      rfl rfl).2.2.2⟩

/-- C5: an Error event makes `parse` return the formatted vendor error
and no chunk while leaving the state (hence the recoverable aggregated
response) unchanged; more generally every consume call that returns an
error leaves the accumulator exactly as it was. -/
theorem error_event_is_pure_failure :
    (∀ (s : ClaudeEventDataParser) (e : ErrorData),
      s.parse (.Error e) = (s, .error ("Error from Claude API: " ++ e.display)))
    ∧ (∀ (s : ClaudeEventDataParser) (e : ErrorData),
      (s.parse (.Error e)).1.claude_response = s.claude_response)
    ∧ (∀ (s : ClaudeEventDataParser) (d : EventData) (msg : String),
      (s.parse d).2 = .error msg → (s.parse d).1 = s) := by
  refine ⟨fun s e => rfl, fun s e => rfl, ?_⟩
  intro s d msg h
  cases d with
  | Error e => rfl
  | MessageStart m => simp [ClaudeEventDataParser.parse] at h
  | ContentBlockStart i b => cases b <;> simp [ClaudeEventDataParser.parse] at h
  | Ping => simp [ClaudeEventDataParser.parse] at h
  | ContentBlockDelta i dl =>
    cases dl with
    | TextDelta t => simp [ClaudeEventDataParser.parse] at h
    | InputJsonDelta pj =>
      rcases htc : s.tool_call with _ | tc
      · simp [ClaudeEventDataParser.parse, htc] at h
      · cases tc
        simp [ClaudeEventDataParser.parse, htc] at h
    | ThinkingDelta t => simp [ClaudeEventDataParser.parse] at h
    | SignatureDelta t => simp [ClaudeEventDataParser.parse] at h
  | ContentBlockStop i =>
    rcases htc : s.tool_call with _ | tc
    · simp [ClaudeEventDataParser.parse, htc] at h
    · cases tc with
      | Function f =>
        rcases hpj : parseJson f.function.arguments with _ | v <;>
          simp [ClaudeEventDataParser.parse, htc, hpj] at h
  | MessageDelta dl u => simp [ClaudeEventDataParser.parse] at h
  | MessageStop => simp [ClaudeEventDataParser.parse] at h

theorem error_event_is_pure_failure_witness :
    (ClaudeEventDataParser.default.parse (.Error (.OverloadedError "Overloaded"))).2
      = .error "Error from Claude API: OverloadedError: Overloaded"
    ∧ (ClaudeEventDataParser.default.parse (.Error (.OverloadedError "Overloaded"))).1
      = ClaudeEventDataParser.default :=
  ⟨rfl,
    error_event_is_pure_failure.2.2 ClaudeEventDataParser.default
      (.Error (.OverloadedError "Overloaded"))
      "Error from Claude API: OverloadedError: Overloaded" rfl⟩

/-- C6: the stop-reason to finish-reason mapping is total (it is a Lean
function on the whole `StopReason` type) with exactly the four claimed
entries. -/
theorem stop_reason_mapping_total :
    stopReasonToFinishReason .EndTurn = .Stop
    ∧ stopReasonToFinishReason .MaxTokens = .Length
    ∧ stopReasonToFinishReason .StopSequence = .Stop
    ∧ stopReasonToFinishReason .ToolUse = .ToolCalls :=
  ⟨rfl, rfl, rfl, rfl⟩

/-- C10: an InputJsonDelta arriving while no tool-call accumulator is
open is silently discarded: `parse` succeeds with no chunk and no tool
call and the state is completely unchanged. -/
theorem orphan_input_json_delta_ignored (s : ClaudeEventDataParser) (i : Nat)
    (pj : String) (h : s.tool_call = none) :
    s.parse (.ContentBlockDelta i (.InputJsonDelta pj)) = (s, .ok (none, none)) := by
  simp [ClaudeEventDataParser.parse, h]

theorem orphan_input_json_delta_ignored_witness :
    ClaudeEventDataParser.default.tool_call = none
    ∧ ClaudeEventDataParser.default.parse (.ContentBlockDelta 0 (.InputJsonDelta "\x7b\"a\":1\x7d"))
      = (ClaudeEventDataParser.default, .ok (none, none)) :=
  ⟨rfl, orphan_input_json_delta_ignored ClaudeEventDataParser.default 0 "\x7b\"a\":1\x7d" rfl⟩

/-! ### Structural lemmas about the normalizer loop -/

theorem foldl_processStep_skip (l : List Message) (st : List Message × Option Message)
    (h : ∀ m ∈ l, m.is_all_empty = true) : l.foldl processStep st = st := by
  induction l generalizing st with
  | nil => rfl
  | cons m rest ih =>
    have hm := h m (List.mem_cons_self _ _)
    rw [List.foldl_cons, show processStep st m = st from by simp [processStep, hm]]
    exact ih st (fun x hx => h x (List.mem_cons_of_mem _ hx))

theorem foldl_processStep_append (l : List Message) : ∀ (acc : List Message) (p : Message),
    (l.foldl processStep (acc ++ [p], some p)).1
      = acc ++ mergeAll p (l.filter (fun m => !m.is_all_empty)) := by
  induction l with
  | nil => intro acc p; simp [mergeAll]
  | cons m rest ih =>
    intro acc p
    rw [List.foldl_cons]
    by_cases hm : m.is_all_empty = true
    · rw [show processStep (acc ++ [p], some p) m = (acc ++ [p], some p) from by
        simp [processStep, hm]]
      rw [ih acc p]
      simp [List.filter_cons, hm]
    · by_cases hr : p.role = m.role
      · rw [show processStep (acc ++ [p], some p) m
            = (acc ++ [combine p m], some (combine p m)) from by
          simp [processStep, hm, hr, List.dropLast_concat]]
        rw [ih acc (combine p m)]
        simp [List.filter_cons, hm, mergeAll, hr]
      · rw [show processStep (acc ++ [p], some p) m = ((acc ++ [p]) ++ [m], some m) from by
          simp [processStep, hm, hr]]
        rw [ih (acc ++ [p]) m]
        simp [List.filter_cons, hm, mergeAll, hr]

/-- The imperative loop of `process_messages` equals filter-then-merge. -/
theorem loop_eq (messages : List Message) :
    (messages.foldl processStep ([], none)).1 = loopOut messages := by
  induction messages with
  | nil => rfl
  | cons m rest ih =>
    by_cases hm : m.is_all_empty = true
    · rw [List.foldl_cons, show processStep ([], none) m = ([], none) from by
        simp [processStep, hm], ih]
      simp [loopOut, List.filter_cons, hm]
    · rw [List.foldl_cons, show processStep ([], none) m = ([] ++ [m], some m) from by
        simp [processStep, hm]]
      rw [foldl_processStep_append rest [] m]
      simp [loopOut, List.filter_cons, hm]

theorem finalTrim_cons_placeholder (L : List Message) :
    finalTrim (placeholderMessage :: L) = placeholderMessage :: finalTrim L := by
  cases L with
  | nil => rfl
  | cons x xs =>
    have hne : x :: xs ≠ [] := List.cons_ne_nil _ _
    have ha := List.getLast?_eq_getLast_of_ne_nil hne
    simp only [finalTrim, List.getLast?_cons_cons, ha]
    by_cases hr : ((x :: xs).getLast hne).role = Role.Assistant
    · simp [hr, List.dropLast_cons₂]
    · simp [hr]

/-! ### Claims about the normalizer -/

/-- C1: evaluation of `process_messages` at inputs witnessing that the
claimed conversation invariants do NOT all hold.  The non-empty input
`[{Assistant,""},{User,"hi"}]` (whose second message is non-empty, as the
`any` conjunct shows) yields the placeholder followed by the kept User
message — two consecutive User roles — because the leading-role fixup
inspects the original first message even though it was dropped as empty;
and `[{User,""},{Assistant,"hi"}]` yields output starting with Assistant.
This contradicts the function's own doc comment ("1. start with user
message 2. alternate between user and assistant message"). -/
theorem normalize_invariants_fail_on_dropped_head :
    [(⟨.Assistant, .Text ""⟩ : Message), ⟨.User, .Text "hi"⟩].any (fun m => !m.is_all_empty) = true
    ∧ process_messages [⟨.Assistant, .Text ""⟩, ⟨.User, .Text "hi"⟩]
      = [placeholderMessage, ⟨.User, .Text "hi"⟩]
    ∧ rolesAlternate (process_messages [⟨.Assistant, .Text ""⟩, ⟨.User, .Text "hi"⟩]) = false
    ∧ startsWithUser (process_messages [⟨.User, .Text ""⟩, ⟨.Assistant, .Text "hi"⟩]) = false :=
  ⟨rfl, rfl, rfl, rfl⟩

/-- C8 counterexample: an all-empty input does NOT always yield an empty
output — when its (dropped) first message has role Assistant the output
is the synthetic placeholder message. -/
theorem all_empty_input_not_always_nil :
    process_messages [⟨.Assistant, .Text ""⟩] ≠ [] := by
  rw [show process_messages [⟨.Assistant, .Text ""⟩] = [placeholderMessage] from rfl]
  exact List.cons_ne_nil _ _

/-- C8 (amended): on an input whose messages are all empty,
`process_messages` returns `[]` — unless the original first message has
role Assistant, in which case it returns exactly the synthetic
placeholder User message. -/
theorem process_messages_all_empty (ms : List Message)
    (h : ∀ m ∈ ms, m.is_all_empty = true) :
    process_messages ms
      = match ms.head? with
        | some first => if first.role = .Assistant then [placeholderMessage] else []
        | none => [] := by
  unfold process_messages
  rw [foldl_processStep_skip ms ([], none) h]
  cases ms with
  | nil => rfl
  | cons m rest =>
    by_cases hr : m.role = .Assistant
    · simp [leadingFixup, hr, finalTrim, placeholderMessage]
    · simp [leadingFixup, hr, finalTrim]

theorem process_messages_all_empty_witness :
    (∀ m ∈ [(⟨.Assistant, .Text ""⟩ : Message)], m.is_all_empty = true)
    ∧ process_messages [⟨.Assistant, .Text ""⟩] = [placeholderMessage] :=
  ⟨by decide, process_messages_all_empty [⟨.Assistant, .Text ""⟩] (by decide)⟩

/-- C9 counterexample: the synthetic message's text is
`"Starting the conversation..."` (three ASCII periods), not the claimed
`"Starting the conversation…"` (U+2026 horizontal ellipsis). -/
theorem placeholder_text_mismatch :
    (process_messages [⟨.Assistant, .Text "hi"⟩]).head?
      ≠ some ⟨.User, .Text "Starting the conversation…"⟩ := by
  intro h
  rw [show (process_messages [⟨.Assistant, .Text "hi"⟩]).head?
      = some (⟨.User, .Text "Starting the conversation..."⟩ : Message) from rfl] at h
  simp only [Option.some.injEq, Message.mk.injEq, MessageContent.Text.injEq, true_and] at h
  exact absurd h (by decide)

/-- C9 (amended): when the original first message has role Assistant,
`process_messages` prepends exactly one synthetic User message with the
fixed text `"Starting the conversation..."` (three ASCII periods) at
position 0, the rest of the output being the trimmed merge-loop result;
in particular `[{Assistant,"hi"}]` normalizes to the placeholder followed
by `{Assistant,"hi"}`. -/
theorem leading_assistant_prepends_placeholder :
    (∀ (ms : List Message) (first : Message), ms.head? = some first → first.role = .Assistant →
      process_messages ms = placeholderMessage :: finalTrim (loopOut ms))
    ∧ process_messages [⟨.Assistant, .Text "hi"⟩]
      = [placeholderMessage, ⟨.Assistant, .Text "hi"⟩] := by
  constructor
  · intro ms first h hr
    unfold process_messages
    rw [loop_eq]
    simp only [leadingFixup, h]
    rw [if_pos hr]
    exact finalTrim_cons_placeholder _
  · rfl

theorem leading_assistant_prepends_placeholder_witness :
    ([(⟨.Assistant, .Text "x"⟩ : Message)].head? = some ⟨.Assistant, .Text "x"⟩)
    ∧ process_messages [⟨.Assistant, .Text "x"⟩]
      = placeholderMessage :: finalTrim (loopOut [⟨.Assistant, .Text "x"⟩]) :=
  ⟨rfl, leading_assistant_prepends_placeholder.1 [⟨.Assistant, .Text "x"⟩] ⟨.Assistant, .Text "x"⟩
    rfl rfl⟩

theorem all_dropWhile_false {α : Type} {p : α → Bool} {l : List α} (h : l.all p = false) :
    (l.dropWhile p).all p = false := by
  induction l with
  | nil => simp at h
  | cons c cs ih =>
    rw [List.dropWhile_cons]
    by_cases hc : p c = true
    · rw [if_pos hc]
      rw [List.all_cons, hc, Bool.true_and] at h
      exact ih h
    · rw [if_neg hc, List.all_cons]
      simp [hc]

theorem head?_dropWhile_false {α : Type} {p : α → Bool} {l : List α} {c : α}
    (h : (l.dropWhile p).head? = some c) : p c = false := by
  induction l with
  | nil => simp [List.dropWhile] at h
  | cons x xs ih =>
    rw [List.dropWhile_cons] at h
    by_cases hx : p x = true
    · rw [if_pos hx] at h; exact ih h
    · rw [if_neg hx] at h
      simp only [List.head?_cons, Option.some.injEq] at h
      rw [← h]
      simpa using hx

theorem dropWhile_eq_self_of_head {α : Type} {p : α → Bool} {l : List α}
    (h : ∀ c, l.head? = some c → p c = false) : l.dropWhile p = l := by
  cases l with
  | nil => rfl
  | cons x xs =>
    rw [List.dropWhile_cons, if_neg]
    simp [h x rfl]

theorem isBlank_trimEnd_false {s : String} (h : isBlank s = false) :
    isBlank (trimEnd s) = false := by
  show ((s.data.reverse.dropWhile Char.isWhitespace).reverse).all Char.isWhitespace = false
  rw [List.all_reverse]
  exact all_dropWhile_false (by rw [List.all_reverse]; exact h)

theorem noTrailingWs_trimEnd (s : String) : noTrailingWs (trimEnd s) = true := by
  show (match ((s.data.reverse.dropWhile Char.isWhitespace).reverse).getLast? with
    | some c => !c.isWhitespace
    | none => true) = true
  rw [List.getLast?_reverse]
  cases hh : (s.data.reverse.dropWhile Char.isWhitespace).head? with
  | none => rfl
  | some c => simp [head?_dropWhile_false hh]

theorem trimEnd_eq_self {s : String} (h : noTrailingWs s = true) : trimEnd s = s := by
  unfold noTrailingWs at h
  unfold trimEnd
  have hd : s.data.reverse.dropWhile Char.isWhitespace = s.data.reverse := by
    apply dropWhile_eq_self_of_head
    intro c hc
    rw [List.head?_reverse] at hc
    rw [hc] at h
    simpa using h
  rw [hd, List.reverse_reverse]

theorem combine_role (p m : Message) : (combine p m).role = p.role := by
  obtain ⟨pr, pc⟩ := p
  obtain ⟨mr, mc⟩ := m
  cases pc <;> cases mc <;> rfl

theorem is_all_empty_combine {p m : Message} (hp : p.is_all_empty = false)
    (hm : m.is_all_empty = false) : (combine p m).is_all_empty = false := by
  obtain ⟨pr, pc⟩ := p
  obtain ⟨mr, mc⟩ := m
  cases pc with
  | Text tp =>
    cases mc with
    | Text tm =>
      show isBlank (tp ++ "\n" ++ tm) = false
      replace hp : isBlank tp = false := hp
      unfold isBlank at hp ⊢
      rw [String.data_append, String.data_append, List.all_append, List.all_append, hp]
      rfl
    | Blocks bm =>
      replace hp : isBlank tp = false := hp
      show (ContentBlock.Base (.Text tp) :: bm.filter (fun b => !b.is_empty)).all
        ContentBlock.is_empty = false
      rw [List.all_cons]
      simp [ContentBlock.is_empty, hp]
  | Blocks bp =>
    cases mc with
    | Text tm =>
      replace hm : isBlank tm = false := hm
      show (bp.filter (fun b => !b.is_empty) ++ [ContentBlock.Base (.Text tm)]).all
        ContentBlock.is_empty = false
      rw [List.all_append]
      simp [ContentBlock.is_empty, hm]
    | Blocks bm =>
      replace hp : bp.all ContentBlock.is_empty = false := hp
      obtain ⟨b, hb, hbe⟩ := List.all_eq_false.mp hp
      show (bp.filter (fun b => !b.is_empty) ++ bm.filter (fun b => !b.is_empty)).all
        ContentBlock.is_empty = false
      refine List.all_eq_false.mpr ⟨b, List.mem_append_left _ ?_, hbe⟩
      exact List.mem_filter.mpr ⟨hb, by simpa using hbe⟩

theorem trimBlock_nonEmpty {b : ContentBlock} (h : b.is_empty = false) :
    (trimBlock b).is_empty = false := by
  cases b with
  | Base bb =>
    cases bb with
    | Text t => exact isBlank_trimEnd_false h
    | Thinking t sig => exact h
    | ToolUse t => exact h
  | RequestOnly r => exact h
  | RedactedThinking r => exact h

theorem blockTrimmed_trimBlock (b : ContentBlock) : blockTrimmed (trimBlock b) = true := by
  cases b with
  | Base bb =>
    cases bb with
    | Text t => exact noTrailingWs_trimEnd t
    | Thinking t sig => rfl
    | ToolUse t => rfl
  | RequestOnly r => rfl
  | RedactedThinking r => rfl

theorem trimBlock_eq_self {b : ContentBlock} (h : blockTrimmed b = true) : trimBlock b = b := by
  cases b with
  | Base bb =>
    cases bb with
    | Text t => show ContentBlock.Base (.Text (trimEnd t)) = _; rw [trimEnd_eq_self h]
    | Thinking t sig => rfl
    | ToolUse t => rfl
  | RequestOnly r => rfl
  | RedactedThinking r => rfl

theorem is_all_empty_trimLastMessage {m : Message} (h : m.is_all_empty = false) :
    (trimLastMessage m).is_all_empty = false := by
  obtain ⟨r, c⟩ := m
  cases c with
  | Text t => exact isBlank_trimEnd_false h
  | Blocks bs =>
    replace h : bs.all ContentBlock.is_empty = false := h
    obtain ⟨b, hb, hbe⟩ := List.all_eq_false.mp h
    show (bs.map trimBlock).all ContentBlock.is_empty = false
    refine List.all_eq_false.mpr ⟨trimBlock b, List.mem_map_of_mem _ hb, ?_⟩
    simp [trimBlock_nonEmpty (by simpa using hbe)]

theorem messageTrimmed_trimLastMessage (m : Message) :
    messageTrimmed (trimLastMessage m) = true := by
  obtain ⟨r, c⟩ := m
  cases c with
  | Text t => exact noTrailingWs_trimEnd t
  | Blocks bs =>
    show (bs.map trimBlock).all blockTrimmed = true
    exact List.all_eq_true.mpr (fun x hx => by
      obtain ⟨b, _, rfl⟩ := List.mem_map.mp hx
      exact blockTrimmed_trimBlock b)

theorem trimLastMessage_eq_self {m : Message} (h : messageTrimmed m = true) :
    trimLastMessage m = m := by
  obtain ⟨r, c⟩ := m
  cases c with
  | Text t =>
    show Message.mk r (.Text (trimEnd t)) = _
    rw [trimEnd_eq_self h]
  | Blocks bs =>
    replace h : bs.all blockTrimmed = true := h
    show Message.mk r (.Blocks (bs.map trimBlock)) = _
    rw [show bs.map trimBlock = bs from by
      rw [List.map_congr_left (fun b hb => trimBlock_eq_self (List.all_eq_true.mp h b hb))]
      exact List.map_id bs]

theorem mergeAll_of_alternate (l : List Message) : ∀ (p : Message),
    rolesAlternate (p :: l) = true → mergeAll p l = p :: l := by
  induction l with
  | nil => intro p _; rfl
  | cons m rest ih =>
    intro p h
    unfold rolesAlternate at h
    by_cases hr : p.role = m.role
    · rw [if_pos hr] at h; exact absurd h (by simp)
    · rw [if_neg hr] at h
      unfold mergeAll
      rw [if_neg hr, ih m h]

theorem process_messages_fixpoint (ns : List Message)
    (h1 : ∀ m ∈ ns, m.is_all_empty = false)
    (h2 : rolesAlternate ns = true)
    (h3 : startsWithUser ns = true)
    (h4 : lastAssistantTrimmed ns = true) :
    process_messages ns = ns := by
  unfold process_messages
  rw [loop_eq]
  have hfilter : ns.filter (fun m => !m.is_all_empty) = ns :=
    List.filter_eq_self.mpr (fun a ha => by simp [h1 a ha])
  have hloop : loopOut ns = ns := by
    unfold loopOut
    rw [hfilter]
    cases ns with
    | nil => rfl
    | cons m rest => exact mergeAll_of_alternate rest m h2
  rw [hloop]
  have hfix : leadingFixup ns ns = ns := by
    cases ns with
    | nil => rfl
    | cons m rest =>
      unfold startsWithUser at h3
      simp only [decide_eq_true_eq] at h3
      simp [leadingFixup, h3]
  rw [hfix]
  unfold finalTrim
  rcases hlast : ns.getLast? with _ | last
  · rfl
  · unfold lastAssistantTrimmed at h4
    rw [hlast] at h4
    replace h4 : (if last.role = Role.Assistant then messageTrimmed last else true) = true := h4
    show (if last.role = Role.Assistant then ns.dropLast ++ [trimLastMessage last] else ns) = ns
    by_cases hr : last.role = .Assistant
    · rw [if_pos hr] at h4
      rw [if_pos hr, trimLastMessage_eq_self h4]
      exact List.dropLast_append_getLast? last (Option.mem_def.mpr hlast)
    · rw [if_neg hr]

theorem mem_mergeAll_nonEmpty : ∀ (l : List Message) (p : Message), p.is_all_empty = false →
    (∀ m ∈ l, m.is_all_empty = false) → ∀ x ∈ mergeAll p l, x.is_all_empty = false := by
  intro l
  induction l with
  | nil =>
    intro p hp _ x hx
    have : x = p := by simpa [mergeAll] using hx
    rw [this]; exact hp
  | cons m rest ih =>
    intro p hp hall x hx
    unfold mergeAll at hx
    by_cases hr : p.role = m.role
    · rw [if_pos hr] at hx
      exact ih (combine p m) (is_all_empty_combine hp (hall m (List.mem_cons_self _ _)))
        (fun y hy => hall y (List.mem_cons_of_mem _ hy)) x hx
    · rw [if_neg hr] at hx
      rcases List.mem_cons.mp hx with h | h
      · rw [h]; exact hp
      · exact ih m (hall m (List.mem_cons_self _ _))
          (fun y hy => hall y (List.mem_cons_of_mem _ hy)) x h

theorem mem_loopOut_nonEmpty (ms : List Message) :
    ∀ x ∈ loopOut ms, x.is_all_empty = false := by
  unfold loopOut
  rcases hf : ms.filter (fun m => !m.is_all_empty) with _ | ⟨m, rest⟩
  · rw [hf]; intro x hx; exact absurd hx (by simp)
  · rw [hf]
    intro x hx
    replace hx : x ∈ mergeAll m rest := hx
    have hmem : ∀ y ∈ m :: rest, y.is_all_empty = false := by
      intro y hy
      have h1 : y ∈ ms.filter (fun m => !m.is_all_empty) := by rw [hf]; exact hy
      simpa using (List.mem_filter.mp h1).2
    exact mem_mergeAll_nonEmpty rest m (hmem m (List.mem_cons_self _ _))
      (fun y hy => hmem y (List.mem_cons_of_mem _ hy)) x hx

theorem mem_leadingFixup_nonEmpty (ms : List Message) (L : List Message)
    (hL : ∀ y ∈ L, y.is_all_empty = false) :
    ∀ y ∈ leadingFixup ms L, y.is_all_empty = false := by
  intro y hy
  unfold leadingFixup at hy
  rcases hh : ms.head? with _ | first
  · rw [hh] at hy; exact hL y hy
  · rw [hh] at hy
    replace hy : y ∈ (if first.role = .Assistant then placeholderMessage :: L else L) := hy
    by_cases hr : first.role = .Assistant
    · rw [if_pos hr] at hy
      rcases List.mem_cons.mp hy with h | h
      · rw [h]; rfl
      · exact hL y h
    · rw [if_neg hr] at hy; exact hL y hy

theorem mem_finalTrim_nonEmpty (L : List Message) (hL : ∀ y ∈ L, y.is_all_empty = false) :
    ∀ y ∈ finalTrim L, y.is_all_empty = false := by
  intro y hy
  unfold finalTrim at hy
  rcases hlast : L.getLast? with _ | last
  · rw [hlast] at hy; exact hL y hy
  · rw [hlast] at hy
    replace hy : y ∈ (if last.role = .Assistant then L.dropLast ++ [trimLastMessage last] else L) := hy
    by_cases hr : last.role = .Assistant
    · rw [if_pos hr] at hy
      rcases List.mem_append.mp hy with h | h
      · exact hL y ((List.dropLast_sublist L).subset h)
      · have : y = trimLastMessage last := by simpa using h
        rw [this]
        exact is_all_empty_trimLastMessage
          (hL last (List.mem_of_mem_getLast? (Option.mem_def.mpr hlast)))
    · rw [if_neg hr] at hy; exact hL y hy

theorem mem_process_nonEmpty (ms : List Message) :
    ∀ x ∈ process_messages ms, x.is_all_empty = false := by
  unfold process_messages
  rw [loop_eq]
  exact mem_finalTrim_nonEmpty _ (mem_leadingFixup_nonEmpty ms _ (mem_loopOut_nonEmpty ms))

theorem lastAssistantTrimmed_finalTrim (L : List Message) :
    lastAssistantTrimmed (finalTrim L) = true := by
  unfold finalTrim
  rcases hlast : L.getLast? with _ | last
  · simp [lastAssistantTrimmed, hlast]
  · show lastAssistantTrimmed (if last.role = .Assistant
      then L.dropLast ++ [trimLastMessage last] else L) = true
    by_cases hr : last.role = .Assistant
    · rw [if_pos hr]
      unfold lastAssistantTrimmed
      rw [List.getLast?_concat]
      show (if (trimLastMessage last).role = Role.Assistant
        then messageTrimmed (trimLastMessage last) else true) = true
      rw [show (trimLastMessage last).role = last.role from rfl]
      rw [if_pos hr]
      exact messageTrimmed_trimLastMessage last
    · rw [if_neg hr]
      simp [lastAssistantTrimmed, hlast, hr]

theorem process_lastAssistantTrimmed (ms : List Message) :
    lastAssistantTrimmed (process_messages ms) = true := by
  unfold process_messages
  exact lastAssistantTrimmed_finalTrim _

/-- C7 (amended): normalization is idempotent exactly on the inputs
whose output really is a normalized conversation: whenever
`process_messages ms` starts with a User message (or is empty) and its
roles strictly alternate, applying `process_messages` again returns it
unchanged.  (The remaining invariants — all messages non-empty and a
trimmed final Assistant message — hold of every output, see
`mem_process_nonEmpty` and `process_lastAssistantTrimmed`.) -/
theorem process_messages_idempotent_on_normalized (ms : List Message)
    (h3 : startsWithUser (process_messages ms) = true)
    (h2 : rolesAlternate (process_messages ms) = true) :
    process_messages (process_messages ms) = process_messages ms :=
  process_messages_fixpoint (process_messages ms) (mem_process_nonEmpty ms) h2 h3
    (process_lastAssistantTrimmed ms)

theorem process_messages_idempotent_on_normalized_witness :
    startsWithUser (process_messages [⟨.User, .Text "a"⟩, ⟨.User, .Text "b"⟩]) = true
    ∧ rolesAlternate (process_messages [⟨.User, .Text "a"⟩, ⟨.User, .Text "b"⟩]) = true
    ∧ process_messages (process_messages [⟨.User, .Text "a"⟩, ⟨.User, .Text "b"⟩])
      = process_messages [⟨.User, .Text "a"⟩, ⟨.User, .Text "b"⟩] :=
  ⟨rfl, rfl,
    process_messages_idempotent_on_normalized [⟨.User, .Text "a"⟩, ⟨.User, .Text "b"⟩] rfl rfl⟩

/-- C7 counterexample: `process_messages` is NOT idempotent on every
input.  Normalizing `[{Assistant,""},{User,"hi"}]` yields the placeholder
followed by a User message (two consecutive User roles), and a second
normalization merges them into a single message. -/
theorem process_messages_not_idempotent :
    process_messages (process_messages [⟨.Assistant, .Text ""⟩, ⟨.User, .Text "hi"⟩])
      ≠ process_messages [⟨.Assistant, .Text ""⟩, ⟨.User, .Text "hi"⟩] := by
  intro h
  rw [show process_messages (process_messages [⟨.Assistant, .Text ""⟩, ⟨.User, .Text "hi"⟩])
      = [⟨.User, .Text "Starting the conversation...\nhi"⟩] from rfl,
    show process_messages [⟨.Assistant, .Text ""⟩, ⟨.User, .Text "hi"⟩]
      = [placeholderMessage, ⟨.User, .Text "hi"⟩] from rfl] at h
  exact absurd (congrArg List.length h) (by decide)
